import Mathlib

/-!
Shallow embedding of tsvc_runner (src/tsvc_runner/__main__.py): the
vectorization oracle with its two backends (optimization-record log and
binary disassembly scan), the benchmark output parsing, the paired
benchmark pipeline, the reporting loop and the CSV report artifact.
-/

namespace TsvcRunner

/-- A Python dict with string keys and boolean values, modelled as an
association list kept in insertion order (CPython dicts preserve
insertion order). -/
abbrev BoolDict := List (String × Bool)

/-- Membership test, Python `key in d`. -/
def hasKeyD (m : BoolDict) (k : String) : Bool := m.any (fun p => p.1 == k)

/-- Read of `d[k]` under the `defaultdict(lambda: False)` default:
an absent key reads as `false`. This is the pure value component; the
insertion side effect of `defaultdict.__getitem__` is modelled by
`dLookup` below. -/
def lookupD (m : BoolDict) (k : String) : Bool :=
  match m with
  | [] => false
  | (k2, v) :: rest => if k2 == k then v else lookupD rest k

/-- Write `d[k] = v`: overwrite in place when the key is present,
append at the end otherwise. -/
def dictSet (m : BoolDict) (k : String) (v : Bool) : BoolDict :=
  match m with
  | [] => [(k, v)]
  | (k2, v2) :: rest => if k2 == k then (k, v) :: rest else (k2, v2) :: dictSet rest k v

/-- Stateful read `d[k]` of a `defaultdict(lambda: False)`: reading an
absent key inserts the default `false` entry (via `__missing__`) and
returns it; reading a present key returns its value and leaves the dict
unchanged. Returns (value read, dict after the read). -/
def dLookup (m : BoolDict) (k : String) : Bool × BoolDict :=
  if hasKeyD m k then (lookupD m k, m) else (false, m ++ [(k, false)])

/-- One parsed document of the optimization-record log: a generic
key-value mapping with string keys and scalar string values (the keys
the oracle reads, Function, Pass and Name, always hold strings). -/
abbrev OptDoc := List (String × String)

/-- Python `entry.get(k)`: the value at key k, or none when absent. -/
def docGet (d : OptDoc) (k : String) : Option String :=
  match d.find? (fun p => p.1 == k) with
  | some p => some p.2
  | none => none

/-- Loop body of `vectorization_status_from_record`: skip entries with
no Function key, skip entries whose Pass is not loop-vectorize or
slp-vectorize, otherwise OR the running flag for the function with the
test (Name == "Vectorized"). -/
def vsStep (m : BoolDict) (entry : OptDoc) : BoolDict :=
  match docGet entry "Function" with
  | none => m
  | some fn =>
    if docGet entry "Pass" == some "loop-vectorize"
        || docGet entry "Pass" == some "slp-vectorize" then
      dictSet m fn (lookupD m fn || (docGet entry "Name" == some "Vectorized"))
    else m

/-- Embedding of `vectorization_status_from_record` (lines 41 to 52):
fold the loop body over the parsed record list, starting from the empty
defaultdict. -/
def vectorization_status_from_record (parsed_record : List OptDoc) : BoolDict :=
  parsed_record.foldl vsStep []

/-- Contribution test used to state the oracle result: the entry has a
Function key equal to the queried name, a recognized vectorization pass,
and diagnostic name "Vectorized". -/
def recordContrib (k : String) (d : OptDoc) : Bool :=
  docGet d "Function" == some k
    && (docGet d "Pass" == some "loop-vectorize"
        || docGet d "Pass" == some "slp-vectorize")
    && (docGet d "Name" == some "Vectorized")

/-- One raw YAML document of the log before tag resolution: an optional
tag together with its key-value mapping. -/
structure RawDoc where
  tag : Option String
  mapping : OptDoc
deriving DecidableEq

/-- The tags registered on ClangOptRecordLoader (lines 31 to 35). -/
def clangTags : List String := ["!AnalysisFPCommute", "!Missed", "!Passed", "!Analysis"]

/-- Loading of one document by ClangOptRecordLoader: an untagged mapping
is constructed as a plain mapping (SafeLoader behaviour); a tag in the
registered list is constructed via construct_mapping; any other tag has
no registered constructor and raises yaml.ConstructorError. -/
def loadRawDoc (d : RawDoc) : Except String OptDoc :=
  match d.tag with
  | none => .ok d.mapping
  | some t =>
    if clangTags.contains t then .ok d.mapping
    else .error ("could not determine a constructor for the tag " ++ t)

/-- Embedding of `parse_opt_record` (lines 28 to 38):
`list(yaml.load_all(f, ClangOptRecordLoader))` loads the documents in
file order; the first document the loader cannot construct raises. -/
def parse_opt_record : List RawDoc → Except String (List OptDoc)
  | [] => .ok []
  | d :: ds => do
    let m ← loadRawDoc d
    let rest ← parse_opt_record ds
    pure (m :: rest)

/-- Test that pat occurs at the head of s, modelling bytes.startswith. -/
def leadsWith : List Char → List Char → Bool
  | [], _ => true
  | _ :: _, [] => false
  | p :: ps, c :: cs => p == c && leadsWith ps cs

/-- Test that pat occurs as a contiguous subsequence of s. -/
def containsSeq (pat : List Char) : List Char → Bool
  | [] => pat.isEmpty
  | c :: cs => leadsWith pat (c :: cs) || containsSeq pat cs

/-- Test of `re.search(b"vseti?vli?", out)`: the regex matches iff the
text contains "vsetvl" or "vsetivl" (a match of the short form extends
to any optional trailing i, so the two mandatory-part strings decide
the search). -/
def hasVsetvl (out : String) : Bool :=
  containsSeq "vsetvl".data out.data || containsSeq "vsetivl".data out.data

/-- One symbol table entry together with the objdump disassembly text
obtained for it (the output of the external objdump call). -/
structure BinSymbol where
  name : String
  disasm : String
deriving DecidableEq

/-- The parts of the ELF image that `vectorization_status_from_binary`
reads: the machine architecture string and the named symbol table
entries with their disassembly. -/
structure ElfImage where
  machine_arch : String
  symbols : List BinSymbol
deriving DecidableEq

/-- Loop body of `vectorization_status_from_binary`: skip symbols with
an empty name, otherwise set the verdict for the symbol to the
vector-instruction search result on its disassembly. -/
def binStep (m : BoolDict) (s : BinSymbol) : BoolDict :=
  if s.name == "" then m else dictSet m s.name (hasVsetvl s.disasm)

/-- Embedding of `vectorization_status_from_binary` (lines 55 to 82):
reject a non RISC-V machine architecture, otherwise fold the per-symbol
verdict over the symbol table, starting from the empty defaultdict. -/
def vectorization_status_from_binary (elf : ElfImage) : Except String BoolDict :=
  if elf.machine_arch == "RISC-V" then
    .ok (elf.symbols.foldl binStep [])
  else .error "Detection is implemented only for RISC-V binaries"

/-- Whitespace test of Python str.split with no argument, restricted to
the ASCII whitespace characters. -/
def isWsChar (c : Char) : Bool :=
  c == ' ' || c == '\t' || c == '\n' || c == '\r' || c == '\x0b' || c == '\x0c'

/-- Helper of splitWs: acc holds the current token reversed. -/
def splitWsAux : List Char → List Char → List (List Char)
  | acc, [] => if acc.isEmpty then [] else [acc.reverse]
  | acc, c :: cs =>
    if isWsChar c then
      if acc.isEmpty then splitWsAux [] cs else acc.reverse :: splitWsAux [] cs
    else splitWsAux (c :: acc) cs

/-- Python str.split with no argument: split on runs of whitespace,
dropping leading and trailing whitespace, never producing an empty
token. The preceding str.strip of the source line is subsumed. -/
def splitWs (cs : List Char) : List (List Char) := splitWsAux [] cs

/-- Numeric value of a list of decimal digit characters, read most
significant first. -/
def digitsToNat (cs : List Char) : Nat :=
  cs.foldl (fun a c => 10 * a + (c.toNat - 48)) 0

/-- Unsigned part of Python float parsing, for the plain decimal forms
digits, digits.digits, .digits and digits. (trailing point). The
exponent, inf and nan forms do not occur in benchmark output and are
out of the modelled subset. -/
def parseUnsigned (cs : List Char) : Option ℚ :=
  match cs.span Char.isDigit with
  | (intPart, []) =>
    if intPart.isEmpty then none else some (digitsToNat intPart : ℚ)
  | (intPart, c :: frac) =>
    if c == '.' && frac.all Char.isDigit && !(intPart.isEmpty && frac.isEmpty) then
      some ((digitsToNat intPart : ℚ) + (digitsToNat frac : ℚ) / (10 : ℚ) ^ frac.length)
    else none

/-- Python float(s) on a whitespace-free token: an optional sign
followed by an unsigned decimal form; none models ValueError. -/
def parseFloat (s : String) : Option ℚ :=
  match s.data with
  | '+' :: cs => parseUnsigned cs
  | '-' :: cs => (parseUnsigned cs).map Neg.neg
  | cs => parseUnsigned cs

/-- Embedding of the BenchmarkOutput dataclass (lines 86 to 90), with
the float duration modelled as a rational. -/
structure BenchmarkOutput where
  function_name : String
  duration : ℚ
  checksum : String
deriving DecidableEq

/-- Embedding of `BenchmarkOutput.from_output_line` (lines 92 to 96):
strip and split the line on whitespace, then index fields 0, 1, 2 in
evaluation order; a missing index raises IndexError and an unparsable
duration raises ValueError, both fatal. Fields past the third are never
read. -/
def BenchmarkOutput.from_output_line (line : String) : Except String BenchmarkOutput :=
  match splitWs line.data with
  | [] => .error "IndexError"
  | [_] => .error "IndexError"
  | t0 :: t1 :: rest =>
    match parseFloat (String.mk t1) with
    | none => .error "ValueError"
    | some d =>
      match rest with
      | [] => .error "IndexError"
      | t2 :: _ => .ok ⟨String.mk t0, d, String.mk t2⟩

/-- Embedding of `run_benchmark` (lines 99 to 107) as a function of the
lines the child process writes: lines starting with "Loop" are skipped,
every other line is parsed and pushed to the queue, and the terminal
marker none is pushed when the output ends. The result is the full
queue content; a parse failure propagates as the fatal error. -/
def run_benchmark : List String → Except String (List (Option BenchmarkOutput))
  | [] => .ok [none]
  | l :: rest =>
    if leadsWith "Loop".data l.data then run_benchmark rest
    else do
      let b ← BenchmarkOutput.from_output_line l
      let q ← run_benchmark rest
      pure (some b :: q)

/-- Embedding of the pairing loop of `run_benchmarks` (lines 134 to
143) over the two queue contents: each iteration performs one blocking
get on the scalar queue and one on the vector queue, breaks when the
scalar value is the terminal marker none, and otherwise yields the pair
as received. A get on an exhausted queue blocks forever, modelled as
none for the whole run. -/
def run_benchmarks :
    List (Option BenchmarkOutput) → List (Option BenchmarkOutput) →
    Option (List (BenchmarkOutput × Option BenchmarkOutput))
  | novec_item :: novec_rest, vec_item :: vec_rest =>
    match novec_item with
    | none => some []
    | some r =>
      match run_benchmarks novec_rest vec_rest with
      | some pairs => some ((r, vec_item) :: pairs)
      | none => none
  | _, _ => none

/-- Console classification of one speedup value (lines 226 to 231):
red for a regression, cyan for an exceptional speedup, default colour
otherwise. -/
inductive Marker where
  | regression
  | exceptional
  | neutral
deriving DecidableEq

/-- Classification of the speedup in the report loop: `speedup < 1`
prints the red marker, `speedup >= 4` prints the cyan marker, any other
value keeps the neutral colour. -/
def classifySpeedup (speedup : ℚ) : Marker :=
  if speedup < 1 then .regression
  else if 4 ≤ speedup then .exceptional
  else .neutral

/-- One persisted report row (the tuple appended at lines 238 to 246). -/
structure ReportRow where
  function_name : String
  checksum_match : Bool
  vectorized : Bool
  scalar_duration : ℚ
  vector_duration : ℚ
deriving DecidableEq

/-- One iteration of the report loop (lines 210 to 246) on a pair of
records: the assert on the function names raises AssertionError on a
mismatch; the Python float division `novec.duration / vec.duration`
raises ZeroDivisionError when the vector duration is zero; otherwise
the row is built. The verdict map reads are the defaultdict reads
modelled by lookupD (dLookup records their insertion side effect). -/
def reportStep (vs : BoolDict) (novec vec : BenchmarkOutput) : Except String ReportRow :=
  if novec.function_name = vec.function_name then
    if vec.duration = 0 then .error "ZeroDivisionError"
    else
      .ok ⟨novec.function_name, novec.checksum == vec.checksum,
        lookupD vs novec.function_name, novec.duration, vec.duration⟩
  else .error "AssertionError"

/-- Embedding of the report loop of the main block over the paired
records: the rows accumulated into report_items, or the first raised
error. On an error nothing is persisted: the csv writing at lines 243
to 246 is never reached. -/
def report_main (vs : BoolDict) :
    List (BenchmarkOutput × BenchmarkOutput) → Except String (List ReportRow)
  | [] => .ok []
  | (novec, vec) :: rest => do
    let row ← reportStep vs novec vec
    let rows ← report_main vs rest
    pure (row :: rows)

/-- Rows actually persisted to the report artifact: the full list on a
completed run, nothing when the loop raised. -/
def persistedRows : Except String (List ReportRow) → List ReportRow
  | .ok rows => rows
  | .error _ => []

/-- Text of str() on a Python bool, as written by csv.writer. -/
def boolStr : Bool → List Char
  | true => "True".data
  | false => "False".data

/-- Decimal digit characters of a natural number, most significant
first. -/
def natToChars (n : Nat) : List Char :=
  if n = 0 then ['0'] else ((Nat.digits 10 n).map Nat.digitChar).reverse

/-- Decimal text of an integer, with a leading minus sign when
negative. -/
def intToChars (i : Int) : List Char :=
  if i < 0 then '-' :: natToChars i.natAbs else natToChars i.toNat

/-- Injective textual form of a rational duration, numerator slash
denominator. Python writes a float through repr, whose digit syntax
differs, but repr of a float is guaranteed to parse back to the
identical value; this encoding models that exact round-trip contract
for the rational embedding of the durations. -/
def ratChars (q : ℚ) : List Char :=
  intToChars q.num ++ '/' :: natToChars q.den

/-- The five str()-converted fields csv.writer receives for one row. -/
def rowFields (r : ReportRow) : List (List Char) :=
  [r.function_name.data, boolStr r.checksum_match, boolStr r.vectorized,
    ratChars r.scalar_duration, ratChars r.vector_duration]

/-- QUOTE_MINIMAL test of csv.writer: a field is quoted when it holds
the delimiter, the quote character, or a line terminator character. -/
def needsQuoteChars (f : List Char) : Bool :=
  f.any (fun c => c == ',' || c == '"' || c == '\n' || c == '\r')

/-- Doubling of the quote characters inside a quoted field. -/
def escapeQuotes : List Char → List Char
  | [] => []
  | c :: cs => if c == '"' then '"' :: '"' :: escapeQuotes cs else c :: escapeQuotes cs

/-- Encoding of one field by csv.writer. -/
def encodeFieldChars (f : List Char) : List Char :=
  if needsQuoteChars f then '"' :: escapeQuotes f ++ ['"'] else f

/-- Comma join of the encoded fields of one row. -/
def joinComma : List (List Char) → List Char
  | [] => []
  | [f] => f
  | f :: fs => f ++ ',' :: joinComma fs

/-- The csv.writer line written for one row, before its terminator. -/
def encodeRowChars (r : ReportRow) : List Char :=
  joinComma ((rowFields r).map encodeFieldChars)

/-- The report artifact text: each row line terminated by the default
csv.writer line terminator CRLF. -/
def writeReport : List ReportRow → List Char
  | [] => []
  | r :: rs => encodeRowChars r ++ '\r' :: '\n' :: writeReport rs

mutual

/-- Field scanner of a csv reader outside quotes; acc holds the current
field reversed. -/
def csvSplit (acc : List Char) : List Char → List (List Char)
  | [] => [acc.reverse]
  | c :: rest =>
    if c == ',' then acc.reverse :: csvSplit [] rest
    else if c == '"' then csvQuote acc rest
    else csvSplit (c :: acc) rest
termination_by l => l.length

/-- Field scanner of a csv reader inside quotes: a doubled quote stands
for one quote character, a single quote closes the quoted part. -/
def csvQuote (acc : List Char) : List Char → List (List Char)
  | [] => [acc.reverse]
  | c :: rest =>
    if c == '"' then
      match rest with
      | [] => csvSplit acc []
      | c2 :: rest2 =>
        if c2 == '"' then csvQuote ('"' :: acc) rest2 else csvSplit acc (c2 :: rest2)
    else csvQuote (c :: acc) rest
termination_by l => l.length

end

/-- Parse of the str() text of a Python bool. -/
def parseBoolChars (cs : List Char) : Option Bool :=
  if cs = "True".data then some true
  else if cs = "False".data then some false
  else none

/-- Parse of a nonempty all-digit token. -/
def parseNatChars (cs : List Char) : Option Nat :=
  if !cs.isEmpty && cs.all Char.isDigit then some (digitsToNat cs) else none

/-- Parse of an optionally negated all-digit token. -/
def parseIntChars (cs : List Char) : Option Int :=
  match cs with
  | [] => none
  | c :: rest =>
    if c == '-' then (parseNatChars rest).map (fun n => -(Int.ofNat n))
    else (parseNatChars (c :: rest)).map Int.ofNat

/-- Split of a duration text at its first slash. -/
def splitSlash : List Char → Option (List Char × List Char)
  | [] => none
  | c :: rest =>
    if c == '/' then some ([], rest)
    else
      match splitSlash rest with
      | some (np, dp) => some (c :: np, dp)
      | none => none

/-- Parse of the numerator slash denominator duration text. -/
def parseRatChars (cs : List Char) : Option ℚ :=
  match splitSlash cs with
  | some (np, dp) => do
    let n ← parseIntChars np
    let d ← parseNatChars dp
    pure ((n : ℚ) / (d : ℚ))
  | none => none

/-- Decode of one artifact line back into a report row. -/
def decodeRow (line : List Char) : Option ReportRow :=
  match csvSplit [] line with
  | [n, cm, v, sd, vd] => do
    let b1 ← parseBoolChars cm
    let b2 ← parseBoolChars v
    let q1 ← parseRatChars sd
    let q2 ← parseRatChars vd
    pure ⟨String.mk n, b1, b2, q1, q2⟩
  | _ => none

/-- Decode of a list of artifact lines, failing on the first bad row. -/
def decodeRows : List (List Char) → Option (List ReportRow)
  | [] => some []
  | l :: ls => do
    let r ← decodeRow l
    let rs ← decodeRows ls
    pure (r :: rs)

/-- Split of the artifact text into CRLF-separated chunks. -/
def splitCRLF : List Char → List (List Char)
  | [] => [[]]
  | [c] => [[c]]
  | c :: c2 :: rest =>
    if c = '\r' ∧ c2 = '\n' then [] :: splitCRLF rest
    else
      match splitCRLF (c2 :: rest) with
      | [] => [[c]]
      | l :: ls => (c :: l) :: ls

/-- Read of the whole artifact: every chunk but the final empty one is
one CRLF-terminated row line. -/
def readReport (cs : List Char) : Option (List ReportRow) :=
  if (splitCRLF cs).getLast? = some [] then decodeRows (splitCRLF cs).dropLast
  else none

/-- Decision of an Except value being a success. -/
def isOkE {ε α : Type} : Except ε α → Bool
  | .ok _ => true
  | .error _ => false

/-- Sample log entry: a succeeded loop-vectorize record for foo. -/
def vecFooDoc : OptDoc :=
  [("Function", "foo"), ("Pass", "loop-vectorize"), ("Name", "Vectorized")]

/-- Sample log entry: a missed loop-vectorize record for foo. -/
def missFooDoc : OptDoc :=
  [("Function", "foo"), ("Pass", "loop-vectorize"), ("Name", "MissedDetails")]

/-- Sample benchmark records for the pairing pipeline scenario. -/
def b1sample : BenchmarkOutput := ⟨"s000", 5 / 2, "AAA"⟩

/-- Second scalar sample record. -/
def b2sample : BenchmarkOutput := ⟨"s111", 2, "BBB"⟩

/-- Vector-side sample record. -/
def c1vsample : BenchmarkOutput := ⟨"s000", 1 / 2, "AAA"⟩

/-! Lemmas about the defaultdict model. -/

theorem lookupD_dictSet (m : BoolDict) (k j : String) (v : Bool) :
    lookupD (dictSet m k v) j = if k == j then v else lookupD m j := by
  induction m with
  | nil => simp [dictSet, lookupD]
  | cons p rest ih =>
    obtain ⟨k2, v2⟩ := p
    by_cases h : k2 = k
    · subst h
      by_cases hj : k2 = j <;> simp_all [dictSet, lookupD, beq_iff_eq]
    · by_cases hj : k2 = j
      · subst hj
        have hkj : ¬k = k2 := fun e => h e.symm
        simp_all [dictSet, lookupD, beq_iff_eq]
      · simp_all [dictSet, lookupD, beq_iff_eq]

theorem lookupD_of_hasKeyD_false (m : BoolDict) (k : String)
    (h : hasKeyD m k = false) : lookupD m k = false := by
  induction m with
  | nil => rfl
  | cons p rest ih =>
    obtain ⟨k2, v2⟩ := p
    simp only [hasKeyD, List.any_cons, Bool.or_eq_false_iff] at h
    simp only [lookupD, h.1, Bool.false_eq_true, if_neg]
    exact ih h.2

theorem lookupD_append_default (m : BoolDict) (k j : String) :
    lookupD (m ++ [(k, false)]) j = lookupD m j := by
  induction m with
  | nil => simp [lookupD, ite_self]
  | cons p rest ih =>
    obtain ⟨k2, v2⟩ := p
    by_cases h : k2 == j <;> simp [lookupD, h, ih]

/-! Lemmas about the record oracle fold. -/

theorem lookupD_vsStep (m : BoolDict) (d : OptDoc) (k : String) :
    lookupD (vsStep m d) k = (lookupD m k || recordContrib k d) := by
  unfold vsStep recordContrib
  cases hf : docGet d "Function" with
  | none => simp
  | some fn =>
    cases hp : (docGet d "Pass" == some "loop-vectorize"
        || docGet d "Pass" == some "slp-vectorize") with
    | false => simp
    | true =>
      simp only [if_pos, lookupD_dictSet, Bool.true_and, Bool.and_true]
      by_cases hk : fn = k
      · subst hk
        simp
      · simp [hk, beq_iff_eq]

theorem lookupD_record_fold (ds : List OptDoc) (m : BoolDict) (k : String) :
    lookupD (ds.foldl vsStep m) k = (lookupD m k || ds.any (recordContrib k)) := by
  induction ds generalizing m with
  | nil => simp
  | cons d ds ih => simp [List.foldl_cons, ih, lookupD_vsStep, Bool.or_assoc]

/-- C1: for every parsed optimization-record list and every function
name, the verdict computed by the record oracle equals the OR, over all
entries for that function that have a Function key and a recognized
vectorization pass (loop-vectorize or slp-vectorize), of the condition
that the diagnostic name equals "Vectorized"; in particular a function
with one succeeded and one missed record is vectorized in either
order. -/
theorem c1_record_oracle_or_accumulation :
    (∀ (parsed_record : List OptDoc) (function_name : String),
      lookupD (vectorization_status_from_record parsed_record) function_name
        = parsed_record.any (recordContrib function_name))
    ∧ lookupD (vectorization_status_from_record [vecFooDoc, missFooDoc]) "foo" = true
    ∧ lookupD (vectorization_status_from_record [missFooDoc, vecFooDoc]) "foo" = true := by
  refine ⟨fun ds k => ?_, by decide, by decide⟩
  unfold vectorization_status_from_record
  simpa using lookupD_record_fold ds [] k

/-! Lemmas about the binary oracle fold. -/

theorem lookupD_bin_fold (syms : List BinSymbol) (m : BoolDict) (k : String)
    (hnone : syms.any (fun s => s.name == k && hasVsetvl s.disasm) = false)
    (hm : lookupD m k = false) :
    lookupD (syms.foldl binStep m) k = false := by
  induction syms generalizing m with
  | nil => simpa using hm
  | cons s ss ih =>
    simp only [List.any_cons, Bool.or_eq_false_iff] at hnone
    simp only [List.foldl_cons]
    refine ih (binStep m s) hnone.2 ?_
    unfold binStep
    by_cases he : (s.name == "") = true
    · rw [if_pos he]
      exact hm
    · rw [if_neg he, lookupD_dictSet]
      by_cases hk : (s.name == k) = true
      · rw [if_pos hk]
        have h1 := hnone.1
        simpa [hk] using h1
      · rw [if_neg hk]
        exact hm

/-- C2: for a verdict map built by either oracle backend and a function
name never recorded with a vectorization-pass success (names entirely
absent from the evidence included), the lookup yields false. -/
theorem c2_default_false (parsed_record : List OptDoc) (elf : ElfImage) (m : BoolDict)
    (function_name : String)
    (hrec : parsed_record.any (recordContrib function_name) = false)
    (hbin : elf.symbols.any
      (fun s => s.name == function_name && hasVsetvl s.disasm) = false)
    (hok : vectorization_status_from_binary elf = .ok m) :
    lookupD (vectorization_status_from_record parsed_record) function_name = false
      ∧ lookupD m function_name = false := by
  constructor
  · rw [c1_record_oracle_or_accumulation.1]
    exact hrec
  · unfold vectorization_status_from_binary at hok
    by_cases ha : elf.machine_arch == "RISC-V"
    · simp only [ha, if_true, Except.ok.injEq] at hok
      subst hok
      exact lookupD_bin_fold elf.symbols [] function_name hbin rfl
    · simp [ha] at hok

/-- C2 witness: a missed-only log and a scalar-only RISC-V binary both
report false for s000. -/
theorem c2_default_false_witness :
    lookupD (vectorization_status_from_record [missFooDoc]) "s000" = false
      ∧ lookupD [("s000", false)] "s000" = false :=
  c2_default_false [missFooDoc] ⟨"RISC-V", [⟨"s000", "add a0,a0,a1"⟩]⟩
    [("s000", false)] "s000" (by decide) (by decide) (by rfl)

/-- C3: every pair the reporting loop accepts has equal scalar and
vector function names; a pair with differing names raises the fatal
AssertionError before any later pair is processed and nothing is
persisted for the mismatched pair or any later pair. -/
theorem c3_alignment (vs : BoolDict) (pairs : List (BenchmarkOutput × BenchmarkOutput)) :
    ((∀ p ∈ pairs, p.1.function_name = p.2.function_name ∧ p.2.duration ≠ 0) →
      ∃ rows, report_main vs pairs = .ok rows ∧ rows.length = pairs.length)
    ∧ (∀ pre bad post, pairs = pre ++ bad :: post →
        (∀ p ∈ pre, p.1.function_name = p.2.function_name ∧ p.2.duration ≠ 0) →
        bad.1.function_name ≠ bad.2.function_name →
        report_main vs pairs = .error "AssertionError"
          ∧ persistedRows (report_main vs pairs) = []) := by
  constructor
  · intro hall
    induction pairs with
    | nil => exact ⟨[], rfl, rfl⟩
    | cons p rest ih =>
      obtain ⟨hname, hdur⟩ := hall p (List.mem_cons_self p rest)
      obtain ⟨rows, hrows, hlen⟩ := ih (fun q hq => hall q (List.mem_cons_of_mem p hq))
      obtain ⟨nv, v⟩ := p
      refine ⟨⟨nv.function_name, nv.checksum == v.checksum,
          lookupD vs nv.function_name, nv.duration, v.duration⟩ :: rows, ?_, ?_⟩
      · show report_main vs ((nv, v) :: rest) = _
        unfold report_main reportStep
        rw [if_pos hname, if_neg hdur, hrows]
        rfl
      · simpa using hlen
  · intro pre bad post hsplit hpre hbad
    subst hsplit
    have herr : report_main vs (pre ++ bad :: post) = .error "AssertionError" := by
      induction pre with
      | nil =>
        obtain ⟨nv, v⟩ := bad
        show report_main vs ((nv, v) :: post) = _
        unfold report_main reportStep
        rw [if_neg hbad]
        rfl
      | cons p rest ih =>
        obtain ⟨hname, hdur⟩ := hpre p (List.mem_cons_self p rest)
        have hrest := ih (fun q hq => hpre q (List.mem_cons_of_mem p hq))
        obtain ⟨nv, v⟩ := p
        show report_main vs ((nv, v) :: (rest ++ bad :: post)) = _
        unfold report_main reportStep
        rw [if_pos hname, if_neg hdur, hrest]
        rfl
    exact ⟨herr, by rw [herr]; rfl⟩

/-- C3 witness: a second pair qux versus quux aborts the run with the
alignment assertion and persists nothing. -/
theorem c3_alignment_witness :
    report_main [] [(⟨"s000", 2, "X"⟩, ⟨"s000", 1, "X"⟩), (⟨"qux", 1, "X"⟩, ⟨"quux", 1, "X"⟩)]
        = .error "AssertionError"
      ∧ persistedRows
          (report_main []
            [(⟨"s000", 2, "X"⟩, ⟨"s000", 1, "X"⟩), (⟨"qux", 1, "X"⟩, ⟨"quux", 1, "X"⟩)])
        = [] :=
  (c3_alignment [] _).2 [(⟨"s000", 2, "X"⟩, ⟨"s000", 1, "X"⟩)]
    (⟨"qux", 1, "X"⟩, ⟨"quux", 1, "X"⟩) [] rfl
    (by intro p hp; simp at hp; subst hp; exact ⟨rfl, by norm_num⟩)
    (by decide)

/-- C4: speedup classification is threshold exact: below one is the
regression marker, at least four is the exceptional marker, the
interval from one inclusive to four exclusive is neutral; in particular
one is neutral, 0.999 is a regression and four is exceptional. -/
theorem c4_speedup_thresholds :
    (∀ speedup : ℚ, speedup < 1 → classifySpeedup speedup = .regression)
    ∧ (∀ speedup : ℚ, 4 ≤ speedup → classifySpeedup speedup = .exceptional)
    ∧ (∀ speedup : ℚ, 1 ≤ speedup → speedup < 4 → classifySpeedup speedup = .neutral)
    ∧ classifySpeedup 1 = .neutral
    ∧ classifySpeedup (999 / 1000) = .regression
    ∧ classifySpeedup 4 = .exceptional := by
  refine ⟨?_, ?_, ?_, ?_, ?_, ?_⟩
  · intro s h
    unfold classifySpeedup
    rw [if_pos h]
  · intro s h
    unfold classifySpeedup
    rw [if_neg (by linarith), if_pos h]
  · intro s h1 h4
    unfold classifySpeedup
    rw [if_neg (by linarith), if_neg (by linarith)]
  · unfold classifySpeedup
    norm_num
  · unfold classifySpeedup
    norm_num
  · unfold classifySpeedup
    norm_num

/-- C4 witness: concrete speedups on each side of both thresholds. -/
theorem c4_speedup_thresholds_witness :
    classifySpeedup (1 / 2) = .regression ∧ classifySpeedup 5 = .exceptional
      ∧ classifySpeedup 2 = .neutral :=
  ⟨c4_speedup_thresholds.1 (1 / 2) (by norm_num),
    c4_speedup_thresholds.2.1 5 (by norm_num),
    c4_speedup_thresholds.2.2.1 2 (by norm_num) (by norm_num)⟩

/-- C5 counterexample: a pair with vector duration zero does crash the
loop: the speedup division raises the fatal ZeroDivisionError, so no
undefined or infinite classification is produced. -/
theorem c5_zero_duration_cex :
    report_main [] [(⟨"s000", 1, "A"⟩, ⟨"s000", 0, "A"⟩)] = .error "ZeroDivisionError" := by
  rfl

/-- C5 amended: a pair whose vector duration is exactly zero raises a
fatal ZeroDivisionError that aborts the reporting loop before anything
is persisted; any nonzero vector duration is processed without a
division error. -/
theorem c5_zero_duration_amended (vs : BoolDict) (novec vec : BenchmarkOutput)
    (rest : List (BenchmarkOutput × BenchmarkOutput))
    (hname : novec.function_name = vec.function_name) :
    (vec.duration = 0 →
      report_main vs ((novec, vec) :: rest) = .error "ZeroDivisionError"
        ∧ persistedRows (report_main vs ((novec, vec) :: rest)) = [])
    ∧ (vec.duration ≠ 0 →
      reportStep vs novec vec
        = .ok ⟨novec.function_name, novec.checksum == vec.checksum,
            lookupD vs novec.function_name, novec.duration, vec.duration⟩) := by
  constructor
  · intro hz
    have herr : report_main vs ((novec, vec) :: rest) = .error "ZeroDivisionError" := by
      unfold report_main reportStep
      rw [if_pos hname, if_pos hz]
      rfl
    exact ⟨herr, by rw [herr]; rfl⟩
  · intro hz
    unfold reportStep
    rw [if_pos hname, if_neg hz]

/-- C5 amended witness: a zero vector duration aborts with the division
error and a small nonzero one is processed. -/
theorem c5_zero_duration_amended_witness :
    (report_main [] [(⟨"s000", 1, "A"⟩, ⟨"s000", 0, "A"⟩)] = .error "ZeroDivisionError"
        ∧ persistedRows (report_main [] [(⟨"s000", 1, "A"⟩, ⟨"s000", 0, "A"⟩)]) = [])
      ∧ reportStep [] ⟨"s000", 1, "A"⟩ ⟨"s000", 1 / 1000000, "A"⟩
        = .ok ⟨"s000", true, false, 1, 1 / 1000000⟩ :=
  ⟨(c5_zero_duration_amended [] ⟨"s000", 1, "A"⟩ ⟨"s000", 0, "A"⟩ [] rfl).1 rfl,
    (c5_zero_duration_amended [] ⟨"s000", 1, "A"⟩ ⟨"s000", 1 / 1000000, "A"⟩ [] rfl).2
      (by norm_num)⟩

/-- C6 counterexample: a defaultdict read of a key absent from the
verdict map inserts the default entry, so the key set after the lookup
differs from the key set before it. -/
theorem c6_verdict_map_mutation_cex :
    (dLookup [] "s000").2 ≠ ([] : BoolDict) := by
  decide

/-- C6 amended: the verdict map is built once before the reporting loop
and lookups never change any observable value: each read returns the
default-completed value, every lookup result is identical before and
after any read, and a read of a present key leaves the dict unchanged;
only a read of an absent key appends the default false entry. -/
theorem c6_verdict_map_observational (m : BoolDict) (k : String) :
    (dLookup m k).1 = lookupD m k
    ∧ (∀ j, lookupD (dLookup m k).2 j = lookupD m j)
    ∧ (hasKeyD m k = true → (dLookup m k).2 = m) := by
  unfold dLookup
  by_cases h : hasKeyD m k = true
  · rw [if_pos h]
    exact ⟨rfl, fun j => rfl, fun _ => rfl⟩
  · rw [if_neg h]
    refine ⟨?_, fun j => lookupD_append_default m k j, fun ht => absurd ht h⟩
    exact (lookupD_of_hasKeyD_false m k (by simpa using h)).symm

/-- C6 amended witness: reading a present key changes nothing and its
value is returned. -/
theorem c6_verdict_map_observational_witness :
    (dLookup [("s000", true)] "s000").1 = lookupD [("s000", true)] "s000"
      ∧ (dLookup [("s000", true)] "s000").2 = [("s000", true)] :=
  ⟨(c6_verdict_map_observational [("s000", true)] "s000").1,
    (c6_verdict_map_observational [("s000", true)] "s000").2.2 (by decide)⟩

/-- C10: the pairing loop receives one value from each channel per
iteration and stops only when the scalar value is the terminal marker;
when the vector stream ends early the loop yields a pair whose vector
element is the terminal marker itself. -/
theorem c10_pairing_scalar_keyed :
    (∀ (ss vs : List (Option BenchmarkOutput)) (v : Option BenchmarkOutput),
      run_benchmarks (none :: ss) (v :: vs) = some [])
    ∧ (∀ (ss vs : List (Option BenchmarkOutput)) (r : BenchmarkOutput)
        (v : Option BenchmarkOutput),
      run_benchmarks (some r :: ss) (v :: vs)
        = (run_benchmarks ss vs).map (fun pairs => (r, v) :: pairs))
    ∧ run_benchmarks [some b1sample, some b2sample, none] [some c1vsample, none, none]
        = some [(b1sample, some c1vsample), (b2sample, none)] := by
  refine ⟨fun ss vs v => rfl, fun ss vs r v => ?_, by rfl⟩
  show (match run_benchmarks ss vs with
    | some pairs => some ((r, v) :: pairs)
    | none => none) = _
  cases run_benchmarks ss vs <;> rfl

/-- C7 counterexample: a line with four whitespace-separated fields is
not a fatal parse error: the record is built from the first three
fields and the extra field is ignored. -/
theorem c7_extra_fields_cex :
    BenchmarkOutput.from_output_line "a 1 b c" = .ok ⟨"a", 1, "b"⟩ := by
  rfl

/-- C7 amended: parsing a benchmark output line succeeds exactly when
splitting it on whitespace yields at least three fields with the second
parseable as floating point; the record is built from the first three
fields and any further field is ignored, while an empty line, fewer
than three fields, or an unparsable duration are fatal parse errors. -/
theorem c7_line_shape (line : String) :
    isOkE (BenchmarkOutput.from_output_line line)
      = (match splitWs line.data with
        | _ :: t1 :: _ :: _ => (parseFloat (String.mk t1)).isSome
        | _ => false) := by
  unfold BenchmarkOutput.from_output_line
  cases hs : splitWs line.data with
  | nil => rfl
  | cons t0 rest =>
    cases rest with
    | nil => rfl
    | cons t1 rest2 =>
      cases hp : parseFloat (String.mk t1) with
      | none => cases rest2 <;> simp [hp, isOkE]
      | some d => cases rest2 <;> simp [hp, isOkE]

/-- Unfolding of the document parser on a cons, with the two Except
binds spelled out. -/
theorem parse_opt_record_cons (d : RawDoc) (ds : List RawDoc) :
    parse_opt_record (d :: ds)
      = match loadRawDoc d with
        | .ok m =>
          match parse_opt_record ds with
          | .ok rest => .ok (m :: rest)
          | .error e => .error e
        | .error e => .error e := by
  simp only [parse_opt_record]
  cases loadRawDoc d <;> cases parse_opt_record ds <;> rfl

/-- C8 counterexample: a document with an unregistered exotic tag is
not accepted as a generic mapping: the loader has no constructor for it
and the whole parse is a fatal error. -/
theorem c8_exotic_tag_cex :
    parse_opt_record [⟨some "!Custom", [("Function", "s000")]⟩]
      = .error "could not determine a constructor for the tag !Custom" := by
  rfl

/-- C8 amended: the parser yields the documents in file order as
generic key-value mappings when every document is untagged or carries
one of the four registered clang tags; a document with any other tag,
like an otherwise unparsable document, is a fatal error. -/
theorem c8_registered_tags (ds : List RawDoc) :
    ((∀ d ∈ ds, d.tag = none ∨ ∃ t, d.tag = some t ∧ clangTags.contains t = true) →
      parse_opt_record ds = .ok (ds.map RawDoc.mapping))
    ∧ (∀ pre d post t, ds = pre ++ d :: post →
        (∀ d2 ∈ pre,
          d2.tag = none ∨ ∃ t2, d2.tag = some t2 ∧ clangTags.contains t2 = true) →
        d.tag = some t → clangTags.contains t = false →
        isOkE (parse_opt_record ds) = false) := by
  constructor
  · intro hall
    induction ds with
    | nil => rfl
    | cons d ds ih =>
      have hd := hall d (List.mem_cons_self d ds)
      have hok : loadRawDoc d = .ok d.mapping := by
        unfold loadRawDoc
        rcases hd with h | ⟨t, ht, hc⟩
        · rw [h]
        · rw [ht]
          exact if_pos hc
      have hrest := ih (fun d2 h2 => hall d2 (List.mem_cons_of_mem d h2))
      rw [parse_opt_record_cons, hok, hrest, List.map_cons]
  · intro pre d post t hsplit hpre ht hc
    subst hsplit
    have hbad : loadRawDoc d
        = .error ("could not determine a constructor for the tag " ++ t) := by
      unfold loadRawDoc
      rw [ht]
      exact if_neg (fun h => Bool.false_ne_true (hc ▸ h))
    induction pre with
    | nil =>
      rw [List.nil_append, parse_opt_record_cons, hbad]
      rfl
    | cons p rest ih =>
      have hp := hpre p (List.mem_cons_self p rest)
      have hokp : loadRawDoc p = .ok p.mapping := by
        unfold loadRawDoc
        rcases hp with h | ⟨t2, ht2, hc2⟩
        · rw [h]
        · rw [ht2]
          exact if_pos hc2
      have hih := ih (fun d2 h2 => hpre d2 (List.mem_cons_of_mem p h2))
      rw [List.cons_append, parse_opt_record_cons, hokp]
      cases hrec : parse_opt_record (rest ++ d :: post) with
      | ok l =>
        rw [hrec] at hih
        exact absurd hih (by simp [isOkE])
      | error e => rfl

/-- C8 amended witness: a registered tag and an untagged mapping parse
in order, an unregistered tag after a registered one is fatal. -/
theorem c8_registered_tags_witness :
    parse_opt_record [⟨some "!Passed", [("Function", "s000")]⟩, ⟨none, [("Key", "V")]⟩]
        = .ok [[("Function", "s000")], [("Key", "V")]]
      ∧ isOkE (parse_opt_record
          [⟨some "!Passed", [("Function", "s000")]⟩, ⟨some "!Weird", []⟩]) = false := by
  constructor
  · refine (c8_registered_tags _).1 ?_
    intro d hd
    rcases List.mem_cons.mp hd with h | h2
    · subst h
      exact Or.inr ⟨"!Passed", rfl, by decide⟩
    · rcases List.mem_cons.mp h2 with h | h3
      · subst h
        exact Or.inl rfl
      · exact absurd h3 (List.not_mem_nil d)
  · refine (c8_registered_tags _).2 [⟨some "!Passed", [("Function", "s000")]⟩]
      ⟨some "!Weird", []⟩ [] "!Weird" rfl ?_ rfl (by decide)
    intro d2 h2
    rcases List.mem_cons.mp h2 with h | h3
    · subst h
      exact Or.inr ⟨"!Passed", rfl, by decide⟩
    · exact absurd h3 (List.not_mem_nil d2)

/-! Lemmas for the artifact round trip: digit printing and parsing. -/

theorem digitsToNat_concat (l : List Char) (c : Char) :
    digitsToNat (l ++ [c]) = 10 * digitsToNat l + (c.toNat - 48) := by
  unfold digitsToNat
  rw [List.foldl_append]
  rfl

theorem digitsToNat_rev_map (ds : List ℕ) (h : ∀ d ∈ ds, d < 10) :
    digitsToNat ((ds.map Nat.digitChar).reverse) = Nat.ofDigits 10 ds := by
  induction ds with
  | nil => rfl
  | cons d ds ih =>
    rw [List.map_cons, List.reverse_cons, digitsToNat_concat,
      ih (fun x hx => h x (List.mem_cons_of_mem d hx))]
    have hd : d < 10 := h d (List.mem_cons_self d ds)
    have hv : (Nat.digitChar d).toNat - 48 = d := by interval_cases d <;> rfl
    rw [hv, Nat.ofDigits_cons]
    ring

theorem digitsToNat_natToChars (n : ℕ) : digitsToNat (natToChars n) = n := by
  unfold natToChars
  by_cases h : n = 0
  · subst h
    rfl
  · rw [if_neg h,
      digitsToNat_rev_map _ (fun d hd => Nat.digits_lt_base (by norm_num) hd),
      Nat.ofDigits_digits]

theorem natToChars_ne_nil (n : ℕ) : natToChars n ≠ [] := by
  unfold natToChars
  by_cases h : n = 0
  · subst h
    simp
  · rw [if_neg h]
    simp [Nat.digits_ne_nil_iff_ne_zero.mpr h]

theorem natToChars_all_digit (n : ℕ) : ∀ c ∈ natToChars n, c.isDigit = true := by
  unfold natToChars
  by_cases h : n = 0
  · subst h
    intro c hc
    simp at hc
    subst hc
    rfl
  · rw [if_neg h]
    intro c hc
    rw [List.mem_reverse] at hc
    obtain ⟨d, hd, rfl⟩ := List.mem_map.mp hc
    have hlt : d < 10 := Nat.digits_lt_base (by norm_num) hd
    interval_cases d <;> rfl

theorem parseNatChars_natToChars (n : ℕ) : parseNatChars (natToChars n) = some n := by
  unfold parseNatChars
  have h1 : (natToChars n).isEmpty = false := by
    cases hh : natToChars n
    · exact absurd hh (natToChars_ne_nil n)
    · rfl
  have h2 : (natToChars n).all Char.isDigit = true := by
    rw [List.all_eq_true]
    exact natToChars_all_digit n
  rw [if_pos (by rw [h1, h2]; rfl), digitsToNat_natToChars]

theorem parseIntChars_intToChars (i : ℤ) : parseIntChars (intToChars i) = some i := by
  unfold intToChars
  by_cases h : i < 0
  · rw [if_pos h]
    show (if ('-' == '-') = true
        then (parseNatChars (natToChars i.natAbs)).map (fun n => -(Int.ofNat n))
        else (parseNatChars ('-' :: natToChars i.natAbs)).map Int.ofNat) = some i
    rw [if_pos (by decide), parseNatChars_natToChars]
    simp only [Option.map_some']
    congr 1
    show -((i.natAbs : ℤ)) = i
    rw [Int.ofNat_natAbs_of_nonpos (le_of_lt h), neg_neg]
  · rw [if_neg h]
    cases hh : natToChars i.toNat with
    | nil => exact absurd hh (natToChars_ne_nil _)
    | cons c rest =>
      have hd : c.isDigit = true :=
        natToChars_all_digit _ c (hh ▸ List.mem_cons_self c rest)
      have hc : (c == '-') = false := by
        cases hcc : c == '-'
        · rfl
        · have he : c = '-' := by simpa using hcc
          rw [he] at hd
          exact absurd hd (by decide)
      show (if (c == '-') = true then (parseNatChars rest).map (fun n => -(Int.ofNat n))
        else (parseNatChars (c :: rest)).map Int.ofNat) = some i
      rw [if_neg (fun hb => Bool.false_ne_true (hc ▸ hb)), ← hh,
        parseNatChars_natToChars]
      simp only [Option.map_some']
      congr 1
      exact Int.toNat_of_nonneg (not_lt.mp h)

theorem splitSlash_append (l r : List Char) (h : ∀ c ∈ l, (c == '/') = false) :
    splitSlash (l ++ '/' :: r) = some (l, r) := by
  induction l with
  | nil =>
    simp [splitSlash]
  | cons c l ih =>
    have hc := h c (List.mem_cons_self c l)
    rw [List.cons_append]
    unfold splitSlash
    rw [if_neg (fun hb => Bool.false_ne_true (hc ▸ hb)),
      ih (fun x hx => h x (List.mem_cons_of_mem c hx))]

theorem intToChars_no_slash (i : ℤ) : ∀ c ∈ intToChars i, (c == '/') = false := by
  intro c hc
  have hdig : c.isDigit = true ∨ c = '-' := by
    unfold intToChars at hc
    by_cases h : i < 0
    · rw [if_pos h] at hc
      rcases List.mem_cons.mp hc with h1 | h2
      · exact Or.inr h1
      · exact Or.inl (natToChars_all_digit _ c h2)
    · rw [if_neg h] at hc
      exact Or.inl (natToChars_all_digit _ c hc)
  rcases hdig with h | h
  · cases hcc : c == '/'
    · rfl
    · have he : c = '/' := by simpa using hcc
      rw [he] at h
      exact absurd h (by decide)
  · subst h
    rfl

theorem parseRatChars_ratChars (q : ℚ) : parseRatChars (ratChars q) = some q := by
  unfold ratChars parseRatChars
  rw [splitSlash_append _ _ (intToChars_no_slash q.num)]
  show (do
    let n ← parseIntChars (intToChars q.num)
    let d ← parseNatChars (natToChars q.den)
    pure ((n : ℚ) / (d : ℚ))) = some q
  rw [parseIntChars_intToChars]
  show (do
    let d ← parseNatChars (natToChars q.den)
    pure ((q.num : ℚ) / (d : ℚ))) = some q
  rw [parseNatChars_natToChars]
  show some ((q.num : ℚ) / (q.den : ℚ)) = some q
  rw [Rat.num_div_den]

theorem parseBoolChars_boolStr (b : Bool) : parseBoolChars (boolStr b) = some b := by
  cases b <;> rfl

/-! Lemmas for the artifact round trip: the csv field scanner. -/

theorem csvSplit_nil (acc : List Char) : csvSplit acc [] = [acc.reverse] := by
  rw [csvSplit]

theorem csvSplit_comma (acc rest : List Char) :
    csvSplit acc (',' :: rest) = acc.reverse :: csvSplit [] rest := by
  rw [csvSplit]
  rfl

theorem csvSplit_quote (acc rest : List Char) :
    csvSplit acc ('"' :: rest) = csvQuote acc rest := by
  rw [csvSplit]
  rfl

theorem csvSplit_other (acc : List Char) (c : Char) (rest : List Char)
    (h1 : (c == ',') = false) (h2 : (c == '"') = false) :
    csvSplit acc (c :: rest) = csvSplit (c :: acc) rest := by
  rw [csvSplit]
  simp [h1, h2]

theorem csvQuote_qq (acc rest2 : List Char) :
    csvQuote acc ('"' :: '"' :: rest2) = csvQuote ('"' :: acc) rest2 := by
  rw [csvQuote.eq_def]
  rfl

theorem csvQuote_close_nil (acc : List Char) : csvQuote acc ['"'] = csvSplit acc [] := by
  rw [csvQuote.eq_def]
  rfl

theorem csvQuote_close (acc : List Char) (c2 : Char) (rest2 : List Char)
    (h : (c2 == '"') = false) :
    csvQuote acc ('"' :: c2 :: rest2) = csvSplit acc (c2 :: rest2) := by
  rw [csvQuote.eq_def]
  simp [h]

theorem csvQuote_other (acc : List Char) (c : Char) (rest : List Char)
    (h : (c == '"') = false) :
    csvQuote acc (c :: rest) = csvQuote (c :: acc) rest := by
  rw [csvQuote.eq_def]
  simp [h]

theorem escapeQuotes_cons_q (f : List Char) :
    escapeQuotes ('"' :: f) = '"' :: '"' :: escapeQuotes f := by
  simp [escapeQuotes]

theorem escapeQuotes_cons (c : Char) (f : List Char) (h : (c == '"') = false) :
    escapeQuotes (c :: f) = c :: escapeQuotes f := by
  simp [escapeQuotes, h]

theorem csvQuote_escape (f : List Char) (acc rest : List Char)
    (hr : ∀ c2 rest2, rest = c2 :: rest2 → (c2 == '"') = false) :
    csvQuote acc (escapeQuotes f ++ '"' :: rest) = csvSplit (f.reverse ++ acc) rest := by
  induction f generalizing acc with
  | nil =>
    simp only [escapeQuotes, List.nil_append, List.reverse_nil]
    cases rest with
    | nil => rw [csvQuote_close_nil]
    | cons c2 rest2 => rw [csvQuote_close acc c2 rest2 (hr c2 rest2 rfl)]
  | cons c f ih =>
    by_cases hc : c = '"'
    · subst hc
      rw [escapeQuotes_cons_q, List.cons_append, List.cons_append, csvQuote_qq,
        ih ('"' :: acc)]
      simp [List.append_assoc]
    · have hcb : (c == '"') = false := by
        cases hcc : c == '"'
        · rfl
        · exact absurd (by simpa using hcc) hc
      rw [escapeQuotes_cons c f hcb, List.cons_append, csvQuote_other acc c _ hcb,
        ih (c :: acc)]
      simp [List.append_assoc]

theorem csvSplit_run (f : List Char) (acc rest : List Char)
    (h : ∀ c ∈ f, (c == ',') = false ∧ (c == '"') = false) :
    csvSplit acc (f ++ rest) = csvSplit (f.reverse ++ acc) rest := by
  induction f generalizing acc with
  | nil => simp
  | cons c f ih =>
    have hc := h c (List.mem_cons_self c f)
    rw [List.cons_append, csvSplit_other acc c _ hc.1 hc.2,
      ih (c :: acc) (fun x hx => h x (List.mem_cons_of_mem c hx))]
    simp [List.append_assoc]

theorem or4_false_split (a b c d : Bool) (h : (a || b || c || d) = false) :
    a = false ∧ b = false := by
  cases a <;> cases b <;> simp_all

theorem csvSplit_encodeField (f : List Char) (acc rest : List Char)
    (hr : ∀ c2 rest2, rest = c2 :: rest2 → (c2 == '"') = false) :
    csvSplit acc (encodeFieldChars f ++ rest) = csvSplit (f.reverse ++ acc) rest := by
  unfold encodeFieldChars
  by_cases hq : needsQuoteChars f = true
  · rw [if_pos hq]
    have hshape : ('"' :: escapeQuotes f ++ ['"']) ++ rest
        = '"' :: (escapeQuotes f ++ '"' :: rest) := by
      simp
    rw [hshape, csvSplit_quote, csvQuote_escape f acc rest hr]
  · rw [if_neg hq]
    refine csvSplit_run f acc rest ?_
    intro c hc
    have hq2 : needsQuoteChars f = false := by
      cases hnq : needsQuoteChars f
      · rfl
      · exact absurd hnq hq
    unfold needsQuoteChars at hq2
    rw [List.any_eq_false] at hq2
    have h5 : (c == ',' || c == '"' || c == '\n' || c == '\r') = false :=
      Bool.eq_false_iff.mpr (hq2 c hc)
    exact or4_false_split _ _ _ _ h5

/-! Lemmas for the artifact round trip: rows and lines. -/

theorem csvSplit_joinComma (fields : List (List Char)) (hne : fields ≠ []) :
    csvSplit [] (joinComma (fields.map encodeFieldChars)) = fields := by
  induction fields with
  | nil => exact absurd rfl hne
  | cons f fs ih =>
    cases fs with
    | nil =>
      show csvSplit [] (joinComma [encodeFieldChars f]) = [f]
      have h1 := csvSplit_encodeField f [] [] (fun c2 r2 hh => nomatch hh)
      rw [List.append_nil] at h1
      rw [show joinComma [encodeFieldChars f] = encodeFieldChars f from rfl, h1,
        csvSplit_nil]
      simp
    | cons f2 fs2 =>
      show csvSplit [] (joinComma (encodeFieldChars f :: encodeFieldChars f2
        :: (fs2.map encodeFieldChars))) = f :: f2 :: fs2
      rw [show joinComma (encodeFieldChars f :: encodeFieldChars f2
          :: (fs2.map encodeFieldChars))
        = encodeFieldChars f ++ ',' :: joinComma (encodeFieldChars f2
          :: (fs2.map encodeFieldChars)) from rfl]
      rw [csvSplit_encodeField f [] _ (fun c2 r2 hh => by
        injection hh with hh1 hh2
        rw [← hh1]
        rfl)]
      rw [csvSplit_comma]
      have hih := ih (by simp)
      rw [List.map_cons] at hih
      rw [hih]
      simp

theorem csvSplit_encodeRow (r : ReportRow) :
    csvSplit [] (encodeRowChars r) = rowFields r :=
  csvSplit_joinComma (rowFields r) (by simp [rowFields])

theorem decodeRow_encodeRow (r : ReportRow) : decodeRow (encodeRowChars r) = some r := by
  unfold decodeRow
  rw [csvSplit_encodeRow]
  show (do
    let b1 ← parseBoolChars (boolStr r.checksum_match)
    let b2 ← parseBoolChars (boolStr r.vectorized)
    let q1 ← parseRatChars (ratChars r.scalar_duration)
    let q2 ← parseRatChars (ratChars r.vector_duration)
    pure (ReportRow.mk (String.mk r.function_name.data) b1 b2 q1 q2)) = some r
  rw [parseBoolChars_boolStr]
  show (do
    let b2 ← parseBoolChars (boolStr r.vectorized)
    let q1 ← parseRatChars (ratChars r.scalar_duration)
    let q2 ← parseRatChars (ratChars r.vector_duration)
    pure (ReportRow.mk (String.mk r.function_name.data) r.checksum_match b2 q1 q2))
      = some r
  rw [parseBoolChars_boolStr]
  show (do
    let q1 ← parseRatChars (ratChars r.scalar_duration)
    let q2 ← parseRatChars (ratChars r.vector_duration)
    pure (ReportRow.mk (String.mk r.function_name.data) r.checksum_match r.vectorized
      q1 q2)) = some r
  rw [parseRatChars_ratChars]
  show (do
    let q2 ← parseRatChars (ratChars r.vector_duration)
    pure (ReportRow.mk (String.mk r.function_name.data) r.checksum_match r.vectorized
      r.scalar_duration q2)) = some r
  rw [parseRatChars_ratChars]
  rfl

theorem decodeRows_map (rows : List ReportRow) :
    decodeRows (rows.map encodeRowChars) = some rows := by
  induction rows with
  | nil => rfl
  | cons r rs ih =>
    rw [List.map_cons]
    show (do
      let r2 ← decodeRow (encodeRowChars r)
      let rs2 ← decodeRows (rs.map encodeRowChars)
      pure (r2 :: rs2)) = some (r :: rs)
    rw [decodeRow_encodeRow]
    show (do
      let rs2 ← decodeRows (rs.map encodeRowChars)
      pure (r :: rs2)) = some (r :: rs)
    rw [ih]
    rfl

theorem mem_escapeQuotes (f : List Char) (c : Char) (h : c ∈ escapeQuotes f) :
    c ∈ f := by
  induction f with
  | nil => simp [escapeQuotes] at h
  | cons a f ih =>
    by_cases ha : a = '"'
    · subst ha
      rw [escapeQuotes_cons_q] at h
      rcases List.mem_cons.mp h with h1 | h2
      · subst h1
        exact List.mem_cons_self _ _
      · rcases List.mem_cons.mp h2 with h3 | h4
        · subst h3
          exact List.mem_cons_self _ _
        · exact List.mem_cons_of_mem _ (ih h4)
    · have hab : (a == '"') = false := by
        cases haa : a == '"'
        · rfl
        · exact absurd (by simpa using haa) ha
      rw [escapeQuotes_cons a f hab] at h
      rcases List.mem_cons.mp h with h1 | h2
      · subst h1
        exact List.mem_cons_self _ _
      · exact List.mem_cons_of_mem _ (ih h2)

theorem mem_encodeField (f : List Char) (c : Char) (h : c ∈ encodeFieldChars f) :
    c ∈ f ∨ c = '"' := by
  unfold encodeFieldChars at h
  by_cases hq : needsQuoteChars f = true
  · rw [if_pos hq] at h
    rcases List.mem_cons.mp h with h1 | h2
    · exact Or.inr h1
    · rcases List.mem_append.mp h2 with h3 | h4
      · exact Or.inl (mem_escapeQuotes f c h3)
      · simp only [List.mem_singleton] at h4
        exact Or.inr h4
  · rw [if_neg hq] at h
    exact Or.inl h

theorem mem_joinComma (fs : List (List Char)) (c : Char) (h : c ∈ joinComma fs) :
    (∃ f ∈ fs, c ∈ f) ∨ c = ',' := by
  induction fs with
  | nil => simp [joinComma] at h
  | cons f fs ih =>
    cases fs with
    | nil =>
      rw [show joinComma [f] = f from rfl] at h
      exact Or.inl ⟨f, List.mem_cons_self f [], h⟩
    | cons f2 fs2 =>
      rw [show joinComma (f :: f2 :: fs2) = f ++ ',' :: joinComma (f2 :: fs2)
        from rfl] at h
      rcases List.mem_append.mp h with h1 | h2
      · exact Or.inl ⟨f, List.mem_cons_self f _, h1⟩
      · rcases List.mem_cons.mp h2 with h3 | h4
        · exact Or.inr h3
        · rcases ih h4 with ⟨g, hg, hcg⟩ | h5
          · exact Or.inl ⟨g, List.mem_cons_of_mem f hg, hcg⟩
          · exact Or.inr h5

theorem ratChars_chars (q : ℚ) (c : Char) (h : c ∈ ratChars q) :
    c.isDigit = true ∨ c = '-' ∨ c = '/' := by
  unfold ratChars at h
  rcases List.mem_append.mp h with h1 | h2
  · unfold intToChars at h1
    by_cases hneg : q.num < 0
    · rw [if_pos hneg] at h1
      rcases List.mem_cons.mp h1 with h3 | h4
      · exact Or.inr (Or.inl h3)
      · exact Or.inl (natToChars_all_digit _ c h4)
    · rw [if_neg hneg] at h1
      exact Or.inl (natToChars_all_digit _ c h1)
  · rcases List.mem_cons.mp h2 with h3 | h4
    · exact Or.inr (Or.inr h3)
    · exact Or.inl (natToChars_all_digit _ c h4)

theorem crlf_not_mem_row (r : ReportRow) (hname : '\r' ∉ r.function_name.data) :
    '\r' ∉ encodeRowChars r := by
  intro h
  rcases mem_joinComma ((rowFields r).map encodeFieldChars) '\r' h with ⟨fe, hfe, hc⟩ | h2
  · rcases List.mem_map.mp hfe with ⟨f, hfmem, rfl⟩
    rcases mem_encodeField f '\r' hc with h3 | h4
    · have hfm : f = r.function_name.data ∨ f = boolStr r.checksum_match
          ∨ f = boolStr r.vectorized ∨ f = ratChars r.scalar_duration
          ∨ f = ratChars r.vector_duration := by
        simpa [rowFields] using hfmem
      rcases hfm with rfl | rfl | rfl | rfl | rfl
      · exact hname h3
      · cases hb : r.checksum_match <;> rw [hb] at h3 <;> exact absurd h3 (by decide)
      · cases hb : r.vectorized <;> rw [hb] at h3 <;> exact absurd h3 (by decide)
      · rcases ratChars_chars _ _ h3 with hd | hd | hd <;> exact absurd hd (by decide)
      · rcases ratChars_chars _ _ h3 with hd | hd | hd <;> exact absurd hd (by decide)
    · exact absurd h4 (by decide)
  · exact absurd h2 (by decide)

theorem splitCRLF_crlf (rest : List Char) :
    splitCRLF ('\r' :: '\n' :: rest) = [] :: splitCRLF rest := by
  rw [splitCRLF]
  simp

theorem splitCRLF_append (l rest : List Char) (h : '\r' ∉ l) :
    splitCRLF (l ++ '\r' :: '\n' :: rest) = l :: splitCRLF rest := by
  induction l with
  | nil =>
    rw [List.nil_append, splitCRLF_crlf]
  | cons c l ih =>
    have hc : c ≠ '\r' := fun e => h (e ▸ List.mem_cons_self c l)
    have hl : '\r' ∉ l := fun e => h (List.mem_cons_of_mem c e)
    cases l with
    | nil =>
      show splitCRLF (c :: '\r' :: '\n' :: rest) = [c] :: splitCRLF rest
      rw [splitCRLF]
      rw [if_neg (fun hh => hc hh.1), splitCRLF_crlf]
    | cons c2 l2 =>
      show splitCRLF (c :: c2 :: (l2 ++ '\r' :: '\n' :: rest))
        = (c :: c2 :: l2) :: splitCRLF rest
      rw [splitCRLF]
      rw [if_neg (fun hh => hc hh.1)]
      have hih := ih hl
      rw [show (c2 :: l2) ++ '\r' :: '\n' :: rest
        = c2 :: (l2 ++ '\r' :: '\n' :: rest) from rfl] at hih
      rw [hih]

theorem splitCRLF_writeReport (rows : List ReportRow)
    (hname : ∀ r ∈ rows, '\r' ∉ r.function_name.data) :
    splitCRLF (writeReport rows) = (rows.map encodeRowChars) ++ [[]] := by
  induction rows with
  | nil => rfl
  | cons r rs ih =>
    show splitCRLF (encodeRowChars r ++ '\r' :: '\n' :: writeReport rs) = _
    rw [splitCRLF_append _ _ (crlf_not_mem_row r (hname r (List.mem_cons_self r rs))),
      ih (fun x hx => hname x (List.mem_cons_of_mem r hx))]
    simp

/-- C9: every report row written to the artifact, when the artifact is
read back, reproduces the identical (function_name, checksum_match,
vectorized, scalar_duration, vector_duration) tuple, and the rows come
back in exactly the order they were written. The function names may
contain any character except a carriage return (benchmark tokens are
whitespace-free, so this always holds for real runs). -/
theorem c9_report_roundtrip (rows : List ReportRow)
    (hname : ∀ r ∈ rows, '\r' ∉ r.function_name.data) :
    readReport (writeReport rows) = some rows := by
  unfold readReport
  rw [splitCRLF_writeReport rows hname, List.getLast?_concat, List.dropLast_concat,
    if_pos rfl, decodeRows_map]

/-- C9 witness: a two-row report with quoting-sensitive names (one
containing a comma) survives the round trip unchanged. -/
theorem c9_report_roundtrip_witness :
    readReport (writeReport [⟨"s000", true, false, 5 / 2, 1 / 2⟩,
        ⟨"s1,1", false, true, 2, 7⟩])
      = some [⟨"s000", true, false, 5 / 2, 1 / 2⟩, ⟨"s1,1", false, true, 2, 7⟩] :=
  c9_report_roundtrip
    [⟨"s000", true, false, 5 / 2, 1 / 2⟩, ⟨"s1,1", false, true, 2, 7⟩]
    (by
      intro r hr
      rcases List.mem_cons.mp hr with h | h2
      · subst h
        decide
      · rcases List.mem_cons.mp h2 with h | h3
        · subst h
          decide
        · exact absurd h3 (List.not_mem_nil r))

/-- Tokens of the whitespace splitter never contain whitespace, so in
particular a parsed function name never contains a carriage return and
the round-trip hypothesis of c9_report_roundtrip holds on every record
the benchmark runner produces. -/
theorem splitWsAux_tokens (cs : List Char) (acc : List Char)
    (hacc : ∀ c ∈ acc, isWsChar c = false) :
    ∀ t ∈ splitWsAux acc cs, ∀ c ∈ t, isWsChar c = false := by
  induction cs generalizing acc with
  | nil =>
    intro t ht c hc
    unfold splitWsAux at ht
    by_cases he : acc.isEmpty = true
    · rw [if_pos he] at ht
      exact absurd ht (List.not_mem_nil t)
    · rw [if_neg he] at ht
      rw [List.mem_singleton] at ht
      subst ht
      exact hacc c (List.mem_reverse.mp hc)
  | cons a cs ih =>
    intro t ht c hc
    unfold splitWsAux at ht
    by_cases hw : isWsChar a = true
    · rw [if_pos hw] at ht
      by_cases he : acc.isEmpty = true
      · rw [if_pos he] at ht
        exact ih [] (fun x hx => absurd hx (List.not_mem_nil x)) t ht c hc
      · rw [if_neg he] at ht
        rcases List.mem_cons.mp ht with h1 | h2
        · subst h1
          exact hacc c (List.mem_reverse.mp hc)
        · exact ih [] (fun x hx => absurd hx (List.not_mem_nil x)) t h2 c hc
    · rw [if_neg hw] at ht
      refine ih (a :: acc) ?_ t ht c hc
      intro x hx
      rcases List.mem_cons.mp hx with h1 | h2
      · subst h1
        cases hxx : isWsChar x
        · rfl
        · exact absurd hxx hw
      · exact hacc x h2

/-- The function name of every successfully parsed benchmark record is
a whitespace-free token of its line. -/
theorem from_output_line_name_no_ws (line : String) (b : BenchmarkOutput)
    (h : BenchmarkOutput.from_output_line line = .ok b) :
    ∀ c ∈ b.function_name.data, isWsChar c = false := by
  unfold BenchmarkOutput.from_output_line at h
  revert h
  cases hs : splitWs line.data with
  | nil => intro h; simp at h
  | cons t0 rest =>
    cases rest with
    | nil => intro h; simp at h
    | cons t1 rest2 =>
      cases hp : parseFloat (String.mk t1) with
      | none =>
        intro h
        simp at h
        rw [hp] at h
        simp at h
      | some d =>
        cases rest2 with
        | nil =>
          intro h
          simp at h
          rw [hp] at h
          simp at h
        | cons t2 more =>
          intro h
          simp at h
          rw [hp] at h
          simp only [Except.ok.injEq] at h
          subst h
          intro c hc
          refine splitWsAux_tokens line.data []
            (fun x hx => absurd hx (List.not_mem_nil x)) t0 ?_ c hc
          rw [show splitWsAux [] line.data = splitWs line.data from rfl, hs]
          exact List.mem_cons_self t0 _

end TsvcRunner
